import Mathlib

/-!
Verification of the schema-matching subsystem of the natality dashboard
(`dashboard_app.py`): the column-name normalizer (`_normalize_col_name`,
`_canonical_key`), the alias resolver (`_match_required_fields`) and the
schema binder (`load_data`).

Modelling conventions:
* Column names are modelled as Lean `String`s over the ASCII character
  range actually occurring in CSV headers; Python's `str.lower`,
  `str.isalnum` and `str.isspace` are embedded as their ASCII
  restrictions (`Char.toLower`, `Char.isAlphanum`, `pyIsSpace`).
* A pandas frame is a list of column names plus rows of cells; a cell is
  a string, a number, or the missing value NaN (`Cell.na`).
* pandas operations that raise an exception at runtime (selecting a
  column label that is absent or duplicated and then coercing it) are
  modelled as `Option`: `none` means the Python code raises.
-/

namespace BirthData

/-- Python `str.isspace`, restricted to the ASCII range: the characters
`str.strip` removes from the ends of a header. -/
def pyIsSpace (c : Char) : Bool :=
  c == ' ' || c == '\t' || c == '\n' || c == '\x0b' || c == '\x0c' || c == '\r' ||
    c == '\x1c' || c == '\x1d' || c == '\x1e' || c == '\x1f'

/-- Python `str.strip`: drop whitespace from both ends. -/
def pyStrip (l : List Char) : List Char :=
  ((l.dropWhile pyIsSpace).reverse.dropWhile pyIsSpace).reverse

/-- Source line `name.replace(" ", "_")`: a single-character replacement is a map. -/
def replaceSpace (l : List Char) : List Char :=
  l.map fun c => if c = ' ' then '_' else c

/-- Python `name.replace("__", "_")`: scan left to right, replacing
non-overlapping occurrences of two underscores by one. -/
def replaceUU : List Char → List Char
  | [] => []
  | [c] => [c]
  | c1 :: c2 :: rest =>
    if c1 = '_' ∧ c2 = '_' then '_' :: replaceUU rest
    else c1 :: replaceUU (c2 :: rest)

/-- Python `"__" in name`: the list has two consecutive underscores. -/
def hasUU : List Char → Bool
  | [] => false
  | [_] => false
  | c1 :: c2 :: rest => (c1 == '_' && c2 == '_') || hasUU (c2 :: rest)

/-- The `while "__" in name` loop of `_normalize_col_name`, driven by a
fuel argument so that it is structurally recursive; `l.length` fuel is
enough to reach the fixpoint (`hasUU_collapseU`), because each
`replaceUU` step on a list containing two consecutive underscores
strictly shrinks it. -/
def collapseUGo : Nat → List Char → List Char
  | 0, l => l
  | n + 1, l => if hasUU l then collapseUGo n (replaceUU l) else l

/-- Underscore-run collapsing as performed by `_normalize_col_name`. -/
def collapseU (l : List Char) : List Char :=
  collapseUGo l.length l

/-- List-level body of `_normalize_col_name`:
`str(name).strip().lower().replace(" ", "_")` followed by the `"__"`
collapsing loop. -/
def normalizeL (l : List Char) : List Char :=
  collapseU (replaceSpace ((pyStrip l).map Char.toLower))

/-- The source's `_normalize_col_name`. -/
def normalizeColName (s : String) : String :=
  (normalizeL s.toList).asString

/-- List-level body of `_canonical_key`: normalize, then keep only
alphanumeric characters. -/
def canonKeyL (l : List Char) : List Char :=
  (normalizeL l).filter Char.isAlphanum

/-- The source's `_canonical_key`. -/
def canonicalKey (s : String) : String :=
  (canonKeyL s.toList).asString

/-! Naming variants for claim C8: two headers that differ only in case,
in the width of separator runs, or in the choice among space, hyphen and
underscore at a separator position have the same spacing shape. -/

/-- Identify the three separator characters and forget case. -/
def sepFold (c : Char) : Char :=
  if c = '-' ∨ c = '_' then ' ' else c.toLower

/-- Collapse every run of two or more spaces to a single space. -/
def collapseSpaces : List Char → List Char
  | [] => []
  | [c] => [c]
  | c1 :: c2 :: rest =>
    if c1 = ' ' ∧ c2 = ' ' then collapseSpaces (c2 :: rest)
    else c1 :: collapseSpaces (c2 :: rest)

/-- The spacing shape of a header: case folded, separators identified,
separator runs collapsed.  Two headers that differ only in case, internal
spacing width, or spaces vs. hyphens vs. underscores in the same
positions have equal spacing shapes. -/
def spacingShape (s : String) : List Char :=
  collapseSpaces (s.toList.map sepFold)

/-! The alias resolver `_match_required_fields`. -/

/-- The list `logical_fields`, in its source declaration order. -/
def logicalFields : List String :=
  ["state_of_residence", "month", "month_code", "year_code", "sex_of_infant", "births"]

/-- The `alias_map` of the source.  Python iterates its per-field sets in
an unordered fashion; the model fixes the literal order of the source and
claim C7 shows the resolver's outcome is invariant under any reordering. -/
def aliasList : String → List String
  | "state_of_residence" => ["stateofresidence", "stateresidence", "residencestate", "state"]
  | "month" => ["month"]
  | "month_code" => ["monthcode"]
  | "year_code" => ["yearcode"]
  | "sex_of_infant" => ["sexofinfant", "infantsex", "sex", "gender", "infantgender"]
  | "births" => ["births", "birthcount", "birthcounts", "numberofbirths", "livebirths", "totalbirths"]
  | _ => []

/-- The `canonical_to_cols` index: the raw columns whose canonical key is
`ck`, in their order of appearance (`.get(ck, [])` yields `[]` when the
key is absent, exactly as the filter does). -/
def canonicalToCols (columns : List String) (ck : String) : List String :=
  columns.filter fun c => canonicalKey c == ck

/-- Candidate collection for one field (steps b and c of the resolver):
raw columns under the field's own canonical key, then the columns under
each registered alias key.  Parameterized by the alias enumeration order
`al` for the determinism claim. -/
def candidatesFor (al : String → List String) (columns : List String) (field : String) :
    List String :=
  canonicalToCols columns (canonicalKey field) ++
    (al field).flatMap (canonicalToCols columns)

/-- The dedup loop of the resolver: keep the first occurrence of each
candidate, tracking a `seen` set. -/
def dedupGo : List String → List String → List String
  | [], _ => []
  | c :: cs, seen => if c ∈ seen then dedupGo cs seen else c :: dedupGo cs (c :: seen)

/-- Order-preserving deduplication (`deduped` in the source). -/
def dedupFirst (l : List String) : List String :=
  dedupGo l []

/-- Resolution of a single logical field: exact literal match first,
otherwise bind exactly when the deduplicated candidate list is a
singleton. -/
def matchFieldWith (al : String → List String) (columns : List String) (field : String) :
    Option String :=
  if field ∈ columns then some field
  else
    let deduped := dedupFirst (candidatesFor al columns field)
    if deduped.length = 1 then deduped.head? else none

/-- The source's `_match_required_fields`, parameterized by alias order:
the `matched` mapping (an association list in field declaration order) and
the `missing` list. -/
def matchRequiredFieldsWith (al : String → List String) (columns : List String) :
    List (String × String) × List String :=
  (logicalFields.filterMap fun f => (matchFieldWith al columns f).map fun c => (f, c),
   logicalFields.filter fun f => (matchFieldWith al columns f).isNone)

/-- The source's `_match_required_fields` with the fixed alias table. -/
def matchRequiredFields (columns : List String) : List (String × String) × List String :=
  matchRequiredFieldsWith aliasList columns

/-! The data model of the binder: a pandas frame. -/

/-- A cell of the CSV table: a string, a number, or missing (NaN).
Numeric values are modelled as integers — every numeric field of this
dataset (births, month and year codes) is an integral count. -/
inductive Cell where
  | str (s : String)
  | num (n : Int)
  | na
deriving DecidableEq, Repr

/-- A pandas DataFrame: column labels plus rows of cells. -/
structure DataFrame where
  columns : List String
  rows : List (List Cell)
deriving DecidableEq, Repr

/-- Decimal digit accumulator for numeric parsing. -/
def digitsVal (l : List Char) : Nat :=
  l.foldl (fun a c => 10 * a + (c.toNat - 48)) 0

/-- Numeric coercion of one string, as by `pd.to_numeric`: surrounding
whitespace allowed, optional sign, then decimal digits.  (The model's
numeric grammar is restricted to integers; the dataset's numeric fields
are integral counts.)  Anything else fails. -/
def parseNum? (s : String) : Option Int :=
  match pyStrip s.toList with
  | '-' :: rest => if rest ≠ [] ∧ rest.all Char.isDigit then some (-(digitsVal rest : Int)) else none
  | '+' :: rest => if rest ≠ [] ∧ rest.all Char.isDigit then some (digitsVal rest : Int) else none
  | t => if t ≠ [] ∧ t.all Char.isDigit then some (digitsVal t : Int) else none

/-- Per-cell action of `pd.to_numeric(column, errors="coerce")`: numbers
pass through, parseable strings become numbers, everything else (missing
values included) becomes NaN. -/
def toNumericCell : Cell → Cell
  | .str s => match parseNum? s with
    | some n => .num n
    | none => .na
  | .num n => .num n
  | .na => .na

/-- Per-cell action of `.astype(str)`: NaN renders as the literal string
`"nan"`, numbers render in decimal. -/
def cellToStr : Cell → Cell
  | .str s => .str s
  | .num n => .str (toString n)
  | .na => .str "nan"

/-- Per-cell action of `.str.strip()` after `astype(str)`. -/
def stripCell : Cell → Cell
  | .str s => .str (pyStrip s.toList).asString
  | c => c

/-- Per-cell action of `.astype(str).str.strip()` on the text columns. -/
def textifyCell (c : Cell) : Cell :=
  stripCell (cellToStr c)

/-- Index of the first column with the given label. -/
def colIdx : List String → String → Nat
  | [], _ => 0
  | c :: cs, n => if c = n then 0 else colIdx cs n + 1

/-- Apply `f` to position `i` of a row, if it exists. -/
def updateAt : Nat → (Cell → Cell) → List Cell → List Cell
  | _, _, [] => []
  | 0, f, c :: cs => f c :: cs
  | i + 1, f, c :: cs => c :: updateAt i f cs

/-- The assignment `df[name] = f(df[name])`.  pandas raises unless the
label selects exactly one column (a missing label is a `KeyError`, a
duplicated label yields a DataFrame that `pd.to_numeric` / `.str`
rejects); `none` models that exception. -/
def mapCellCol (df : DataFrame) (name : String) (f : Cell → Cell) : Option DataFrame :=
  if df.columns.count name = 1 then
    some ⟨df.columns, df.rows.map (updateAt (colIdx df.columns name) f)⟩
  else none

/-- The statement `df.dropna(subset=[name])`: drop every row whose cell
under `name` is missing. -/
def dropnaCol (df : DataFrame) (name : String) : Option DataFrame :=
  if df.columns.count name = 1 then
    some ⟨df.columns, df.rows.filter fun r => decide (r.getD (colIdx df.columns name) .na ≠ .na)⟩
  else none

/-- The rename map `{actual: logical}` built from `matched`, applied to
one column label.  A Python dict keeps the last binding for a key, hence
the reversed search. -/
def renLookup (matched : List (String × String)) (c : String) : String :=
  match matched.reverse.find? (fun p => p.2 == c) with
  | some p => p.1
  | none => c

/-- The statement `df.rename(columns=rename_to_logical)`. -/
def renameDF (df : DataFrame) (matched : List (String × String)) : DataFrame :=
  ⟨df.columns.map (renLookup matched), df.rows⟩

/-- Lines 112–119 of the source: coerce `births` and drop rows where it
is missing, textify and trim the three text columns, coerce the month and
year codes keeping failed rows. -/
def coercePipeline (df : DataFrame) : Option DataFrame :=
  (mapCellCol df "births" toNumericCell).bind fun d1 =>
  (dropnaCol d1 "births").bind fun d2 =>
  (mapCellCol d2 "state_of_residence" textifyCell).bind fun d3 =>
  (mapCellCol d3 "month" textifyCell).bind fun d4 =>
  (mapCellCol d4 "sex_of_infant" textifyCell).bind fun d5 =>
  (mapCellCol d5 "month_code" toNumericCell).bind fun d6 =>
  mapCellCol d6 "year_code" toNumericCell

/-- Outcome of reading the CSV: the file may be absent, unreadable, or a
frame. -/
inductive ReadResult where
  | fileNotFound
  | readError (msg : String)
  | frame (df : DataFrame)

/-- The `detail` component of the loader's result. -/
inductive Detail where
  | none
  | msg (s : String)
  | fields (fs : List String)
deriving DecidableEq, Repr

/-- The 4-tuple `load_data` returns. -/
structure LoadResult where
  table : Option DataFrame
  status : String
  detail : Detail
  matched : Option (List (String × String))
deriving DecidableEq, Repr

/-- The source's `load_data`, over the outcome of `pd.read_csv`.  The
result is `none` exactly when the Python function raises after the read
(pandas label errors in the coercion pipeline); every caught read fault
and every resolver outcome yields `some` result. -/
def load_data : ReadResult → Option LoadResult
  | .fileNotFound => some ⟨Option.none, "file_not_found", .none, Option.none⟩
  | .readError m => some ⟨Option.none, "read_error", .msg m, Option.none⟩
  | .frame df =>
    if (matchRequiredFields (df.columns.map normalizeColName)).2 ≠ [] then
      some ⟨some ⟨df.columns.map normalizeColName, df.rows⟩, "missing_columns",
        .fields (matchRequiredFields (df.columns.map normalizeColName)).2,
        some (matchRequiredFields (df.columns.map normalizeColName)).1⟩
    else
      match coercePipeline (renameDF ⟨df.columns.map normalizeColName, df.rows⟩
          (matchRequiredFields (df.columns.map normalizeColName)).1) with
      | some df3 =>
        some ⟨some df3, "ok", .none, some (matchRequiredFields (df.columns.map normalizeColName)).1⟩
      | Option.none => Option.none

/-- The per-row effect of the whole coercion pipeline, relative to the
renamed column list `C`: coerce births, textify and trim the three text
columns, coerce the month and year codes. -/
def rowTransform (C : List String) (r : List Cell) : List Cell :=
  updateAt (colIdx C "year_code") toNumericCell
    (updateAt (colIdx C "month_code") toNumericCell
      (updateAt (colIdx C "sex_of_infant") textifyCell
        (updateAt (colIdx C "month") textifyCell
          (updateAt (colIdx C "state_of_residence") textifyCell
            (updateAt (colIdx C "births") toNumericCell r)))))

/-- A row's births entry fails numeric coercion (it is non-numeric text
or missing), relative to the renamed column list `C`: these are exactly
the rows `dropna` removes after `pd.to_numeric`. -/
def birthsFails (C : List String) (r : List Cell) : Prop :=
  toNumericCell (r.getD (colIdx C "births") Cell.na) = Cell.na

instance (C : List String) (r : List Cell) : Decidable (birthsFails C r) := by
  unfold birthsFails
  infer_instance

/-- Sample input frame used by witnesses: Scenario-1 headers; the first
row has a missing state, a padded month and a non-numeric month code, the
second row has a non-numeric births value. -/
def sampleFrame : DataFrame :=
  ⟨["State of Residence", "Month", "Month Code", "Year Code", "Sex of Infant", "Births"],
   [[Cell.na, Cell.str " Jan ", Cell.str "N/A", Cell.num 2025, Cell.str "F", Cell.str "10"],
    [Cell.str "TX", Cell.str "Feb", Cell.num 2, Cell.num 2025, Cell.str "M", Cell.str "unknown"]]⟩

/-- The bound table the binder produces from `sampleFrame`: the second
row is dropped (births not coercible), the first is kept with the missing
state turned into the string "nan" and the month code absent. -/
def sampleBound : DataFrame :=
  ⟨["state_of_residence", "month", "month_code", "year_code", "sex_of_infant", "births"],
   [[Cell.str "nan", Cell.str "Jan", Cell.na, Cell.num 2025, Cell.str "F", Cell.num 10]]⟩

/-- The binding the resolver produces from `sampleFrame`'s headers. -/
def sampleMatched : List (String × String) :=
  [("state_of_residence", "state_of_residence"), ("month", "month"),
   ("month_code", "month_code"), ("year_code", "year_code"),
   ("sex_of_infant", "sex_of_infant"), ("births", "births")]

/-- The loader's result on `sampleFrame`. -/
def sampleResult : LoadResult :=
  ⟨some sampleBound, "ok", .none, some sampleMatched⟩

/-! Basic facts about the normalizer. -/

theorem alnum_underscore : Char.isAlphanum '_' = false := by decide

theorem alnum_space : Char.isAlphanum ' ' = false := by decide

theorem replaceUU_length_le : ∀ l : List Char, (replaceUU l).length ≤ l.length
  | [] => by simp [replaceUU]
  | [c] => by simp [replaceUU]
  | c1 :: c2 :: rest => by
    by_cases h : c1 = '_' ∧ c2 = '_'
    · simp only [replaceUU, if_pos h, List.length_cons]
      have := replaceUU_length_le rest
      omega
    · simp only [replaceUU, if_neg h, List.length_cons]
      have := replaceUU_length_le (c2 :: rest)
      simp only [List.length_cons] at this
      omega

theorem replaceUU_length_lt : ∀ l : List Char, hasUU l = true → (replaceUU l).length < l.length
  | [], h => by simp [hasUU] at h
  | [c], h => by simp [hasUU] at h
  | c1 :: c2 :: rest, h => by
    by_cases huu : c1 = '_' ∧ c2 = '_'
    · simp only [replaceUU, if_pos huu, List.length_cons]
      have := replaceUU_length_le rest
      omega
    · have hrest : hasUU (c2 :: rest) = true := by
        simp only [hasUU, Bool.or_eq_true, Bool.and_eq_true, beq_iff_eq] at h
        rcases h with ⟨h1, h2⟩ | h
        · exact absurd ⟨h1, h2⟩ huu
        · exact h
      simp only [replaceUU, if_neg huu, List.length_cons]
      have := replaceUU_length_lt (c2 :: rest) hrest
      simp only [List.length_cons] at this
      omega

/-- With fuel at least the length of the list, the collapsing loop
reaches a fixpoint: the model's fuel is not a semantic restriction. -/
theorem hasUU_collapseUGo : ∀ (n : Nat) (l : List Char), l.length ≤ n →
    hasUU (collapseUGo n l) = false := by
  intro n
  induction n with
  | zero =>
    intro l hl
    have : l = [] := List.length_eq_zero.mp (Nat.le_zero.mp hl)
    subst this
    simp [collapseUGo, hasUU]
  | succ n ih =>
    intro l hl
    by_cases h : hasUU l = true
    · have hlt := replaceUU_length_lt l h
      simp only [collapseUGo, h, if_true]
      exact ih (replaceUU l) (by omega)
    · simp only [collapseUGo, Bool.not_eq_true] at h ⊢
      simp [h]

/-- The normalizer's while-loop terminates at a true fixpoint. -/
theorem hasUU_collapseU (l : List Char) : hasUU (collapseU l) = false :=
  hasUU_collapseUGo l.length l (Nat.le_refl _)

/-! The canonical key ignores everything the normalizer rearranges:
filtering to alphanumeric characters commutes with each normalization
stage. -/

theorem filter_alnum_replaceUU :
    ∀ l : List Char, (replaceUU l).filter Char.isAlphanum = l.filter Char.isAlphanum
  | [] => by simp [replaceUU]
  | [c] => by simp [replaceUU]
  | c1 :: c2 :: rest => by
    by_cases h : c1 = '_' ∧ c2 = '_'
    · obtain ⟨h1, h2⟩ := h
      subst h1; subst h2
      simp [replaceUU, List.filter_cons, alnum_underscore, filter_alnum_replaceUU rest]
    · simp only [replaceUU, if_neg h, List.filter_cons]
      rw [filter_alnum_replaceUU (c2 :: rest)]
      simp [List.filter_cons]

theorem filter_alnum_collapseUGo :
    ∀ (n : Nat) (l : List Char),
      (collapseUGo n l).filter Char.isAlphanum = l.filter Char.isAlphanum := by
  intro n
  induction n with
  | zero => intro l; simp [collapseUGo]
  | succ n ih =>
    intro l
    by_cases h : hasUU l = true
    · simp only [collapseUGo, h, if_true]
      rw [ih, filter_alnum_replaceUU]
    · simp only [collapseUGo, Bool.not_eq_true] at h ⊢
      simp [h]

theorem filter_alnum_collapseU (l : List Char) :
    (collapseU l).filter Char.isAlphanum = l.filter Char.isAlphanum :=
  filter_alnum_collapseUGo l.length l

theorem filter_alnum_replaceSpace (l : List Char) :
    (replaceSpace l).filter Char.isAlphanum = l.filter Char.isAlphanum := by
  induction l with
  | nil => simp [replaceSpace]
  | cons c rest ih =>
    by_cases h : c = ' '
    · subst h
      simp [replaceSpace, List.filter_cons, alnum_underscore, alnum_space] at ih ⊢
      exact ih
    · simp only [replaceSpace, List.map_cons, if_neg h, List.filter_cons] at ih ⊢
      rw [ih]

theorem filter_dropWhile {p q : Char → Bool} (hpq : ∀ c, p c = true → q c = false) :
    ∀ l : List Char, (l.dropWhile p).filter q = l.filter q := by
  intro l
  induction l with
  | nil => simp
  | cons c rest ih =>
    by_cases h : p c = true
    · rw [List.dropWhile_cons_of_pos h, ih, List.filter_cons, hpq c h]
      simp
    · rw [List.dropWhile_cons_of_neg h]

theorem filter_pyStrip {q : Char → Bool} (hq : ∀ c, pyIsSpace c = true → q c = false)
    (l : List Char) : (pyStrip l).filter q = l.filter q := by
  unfold pyStrip
  rw [List.filter_reverse, filter_dropWhile hq, List.filter_reverse,
    List.reverse_reverse, filter_dropWhile hq]

theorem pyIsSpace_not_alnum_toLower (c : Char) (h : pyIsSpace c = true) :
    Char.isAlphanum (Char.toLower c) = false := by
  simp only [pyIsSpace, Bool.or_eq_true, beq_iff_eq] at h
  rcases h with ((((((((h | h) | h) | h) | h) | h) | h) | h) | h) | h <;> subst h <;> decide

/-- Structure theorem for `_canonical_key`: the key is just the
lower-cased input with everything non-alphanumeric dropped — stripping,
space replacement and underscore collapsing never touch an alphanumeric
character. -/
theorem canonKeyL_eq (l : List Char) :
    canonKeyL l = (l.map Char.toLower).filter Char.isAlphanum := by
  unfold canonKeyL normalizeL
  rw [filter_alnum_collapseU, filter_alnum_replaceSpace, List.filter_map,
    List.filter_map]
  congr 1
  exact filter_pyStrip (fun c h => by
    simpa [Function.comp] using pyIsSpace_not_alnum_toLower c h) l

theorem filter_alnum_collapseSpaces :
    ∀ l : List Char, (collapseSpaces l).filter Char.isAlphanum = l.filter Char.isAlphanum
  | [] => by simp [collapseSpaces]
  | [c] => by simp [collapseSpaces]
  | c1 :: c2 :: rest => by
    by_cases h : c1 = ' ' ∧ c2 = ' '
    · obtain ⟨h1, h2⟩ := h
      subst h1; subst h2
      have hstep : collapseSpaces (' ' :: ' ' :: rest) = collapseSpaces (' ' :: rest) := by
        simp [collapseSpaces]
      rw [hstep, filter_alnum_collapseSpaces (' ' :: rest)]
      simp [List.filter_cons, alnum_space]
    · rw [collapseSpaces, if_neg h, List.filter_cons, List.filter_cons,
        filter_alnum_collapseSpaces (c2 :: rest), List.filter_cons]

theorem filter_alnum_map_sepFold (l : List Char) :
    (l.map sepFold).filter Char.isAlphanum = (l.map Char.toLower).filter Char.isAlphanum := by
  induction l with
  | nil => simp
  | cons c rest ih =>
    by_cases h : c = '-' ∨ c = '_'
    · have hlow : Char.toLower c = c := by rcases h with h | h <;> subst h <;> decide
      have halnum : Char.isAlphanum c = false := by rcases h with h | h <;> subst h <;> decide
      simp only [List.map_cons, sepFold, if_pos h, List.filter_cons, alnum_space, hlow,
        halnum, ih]
      simp
    · simp only [List.map_cons, sepFold, if_neg h, List.filter_cons, ih]

/-! Properties of the dedup loop. -/

theorem mem_dedupGo : ∀ (l seen : List String) (a : String),
    a ∈ dedupGo l seen ↔ a ∈ l ∧ a ∉ seen := by
  intro l
  induction l with
  | nil => intro seen a; simp [dedupGo]
  | cons c cs ih =>
    intro seen a
    by_cases h : c ∈ seen
    · rw [dedupGo, if_pos h, ih]
      simp only [List.mem_cons]
      constructor
      · rintro ⟨h1, h2⟩; exact ⟨Or.inr h1, h2⟩
      · rintro ⟨rfl | h1, h2⟩
        · exact absurd h h2
        · exact ⟨h1, h2⟩
    · rw [dedupGo, if_neg h]
      simp only [List.mem_cons, ih]
      constructor
      · rintro (rfl | ⟨h1, h2⟩)
        · exact ⟨Or.inl rfl, h⟩
        · exact ⟨Or.inr h1, fun hs => h2 (Or.inr hs)⟩
      · rintro ⟨rfl | h1, h2⟩
        · exact Or.inl rfl
        · by_cases hc : a = c
          · exact Or.inl hc
          · exact Or.inr ⟨h1, fun hs => hs.elim hc h2⟩

theorem nodup_dedupGo : ∀ (l seen : List String), (dedupGo l seen).Nodup := by
  intro l
  induction l with
  | nil => intro seen; simp [dedupGo]
  | cons c cs ih =>
    intro seen
    by_cases h : c ∈ seen
    · rw [dedupGo, if_pos h]; exact ih seen
    · rw [dedupGo, if_neg h]
      refine List.nodup_cons.mpr ⟨fun hc => ?_, ih (c :: seen)⟩
      exact ((mem_dedupGo cs (c :: seen) c).mp hc).2 (List.mem_cons_self c seen)

theorem mem_dedupFirst (l : List String) (a : String) : a ∈ dedupFirst l ↔ a ∈ l := by
  rw [dedupFirst, mem_dedupGo]
  simp

theorem nodup_dedupFirst (l : List String) : (dedupFirst l).Nodup :=
  nodup_dedupGo l []

theorem dedupFirst_perm {l1 l2 : List String} (h : ∀ a, a ∈ l1 ↔ a ∈ l2) :
    (dedupFirst l1).Perm (dedupFirst l2) := by
  apply List.perm_of_nodup_nodup_toFinset_eq (nodup_dedupFirst l1) (nodup_dedupFirst l2)
  ext a
  simp [List.mem_toFinset, mem_dedupFirst, h a]

theorem two_le_length_of_nodup {l : List String} {a b : String} (hn : l.Nodup)
    (ha : a ∈ l) (hb : b ∈ l) (hab : a ≠ b) : 2 ≤ l.length := by
  have hsub : ({a, b} : Finset String) ⊆ l.toFinset := by
    intro x hx
    rcases Finset.mem_insert.mp hx with rfl | hx
    · exact List.mem_toFinset.mpr ha
    · rw [Finset.mem_singleton] at hx
      subst hx
      exact List.mem_toFinset.mpr hb
  calc 2 = ({a, b} : Finset String).card := (Finset.card_pair hab).symm
    _ ≤ l.toFinset.card := Finset.card_le_card hsub
    _ = l.length := by rw [List.toFinset_card_of_nodup hn]

/-! Properties of single-field resolution. -/

theorem matchFieldWith_of_mem (al : String → List String) {columns : List String}
    {field : String} (h : field ∈ columns) : matchFieldWith al columns field = some field := by
  unfold matchFieldWith
  rw [if_pos h]

theorem matchFieldWith_of_ambiguous (al : String → List String) {columns : List String}
    {field : String} (h : field ∉ columns)
    (h2 : 2 ≤ (dedupFirst (candidatesFor al columns field)).length) :
    matchFieldWith al columns field = none := by
  unfold matchFieldWith
  rw [if_neg h, if_neg (by omega)]

theorem matchFieldWith_congr {al1 al2 : String → List String} (columns : List String)
    (field : String) (h : (al1 field).Perm (al2 field)) :
    matchFieldWith al1 columns field = matchFieldWith al2 columns field := by
  unfold matchFieldWith
  by_cases hex : field ∈ columns
  · rw [if_pos hex, if_pos hex]
  · rw [if_neg hex, if_neg hex]
    have hmem : ∀ a, a ∈ candidatesFor al1 columns field ↔ a ∈ candidatesFor al2 columns field := by
      intro a
      simp only [candidatesFor, List.mem_append, List.mem_flatMap, h.mem_iff]
    have hperm := dedupFirst_perm hmem
    simp only [hperm.length_eq]
    by_cases hlen : (dedupFirst (candidatesFor al2 columns field)).length = 1
    · rw [if_pos hlen, if_pos hlen]
      obtain ⟨x, hx⟩ := List.length_eq_one.mp hlen
      have h1 : dedupFirst (candidatesFor al1 columns field) = [x] :=
        List.perm_singleton.mp (hx ▸ hperm)
      rw [h1, hx]
    · rw [if_neg hlen, if_neg hlen]

/-- Membership in `missing` is exactly failure of single-field resolution
on a declared logical field. -/
theorem mem_missing_iff (al : String → List String) (columns : List String) (f : String) :
    f ∈ (matchRequiredFieldsWith al columns).2 ↔
      f ∈ logicalFields ∧ matchFieldWith al columns f = none := by
  unfold matchRequiredFieldsWith
  simp [List.mem_filter, Option.isNone_iff_eq_none]

/-- Unfolding of the binder on the missing-columns branch. -/
theorem load_data_missing (df : DataFrame)
    (h : (matchRequiredFields (df.columns.map normalizeColName)).2 ≠ []) :
    load_data (.frame df) =
      some ⟨some ⟨df.columns.map normalizeColName, df.rows⟩, "missing_columns",
        .fields (matchRequiredFields (df.columns.map normalizeColName)).2,
        some (matchRequiredFields (df.columns.map normalizeColName)).1⟩ := by
  simp only [load_data]
  rw [if_pos h]

/-! The claims about the resolver. -/

/-- C3: a raw column already named exactly a logical field's string is
bound to that field immediately; the exact literal match takes precedence
over canonical-key and alias matching, so such a field is bound to itself
and is never reported missing, whatever the other columns are. -/
theorem exact_name_precedence (columns : List String) (field : String)
    (hf : field ∈ logicalFields) (hcol : field ∈ columns) :
    matchFieldWith aliasList columns field = some field ∧
    (field, field) ∈ (matchRequiredFields columns).1 ∧
    field ∉ (matchRequiredFields columns).2 := by
  refine ⟨matchFieldWith_of_mem aliasList hcol, ?_, ?_⟩
  · unfold matchRequiredFields matchRequiredFieldsWith
    simp only [List.mem_filterMap]
    exact ⟨field, hf, by rw [matchFieldWith_of_mem aliasList hcol]; rfl⟩
  · rw [matchRequiredFields, mem_missing_iff]
    rintro ⟨-, hnone⟩
    rw [matchFieldWith_of_mem aliasList hcol] at hnone
    exact Option.noConfusion hnone

/-- Witness for C3: a column named exactly "births" is bound to `births`
even though "birth_count" canonicalizes to a registered alias of the same
field. -/
theorem exact_name_precedence_witness :
    matchFieldWith aliasList ["births", "birth_count"] "births" = some "births" ∧
    ("births", "births") ∈ (matchRequiredFields ["births", "birth_count"]).1 ∧
    "births" ∉ (matchRequiredFields ["births", "birth_count"]).2 :=
  exact_name_precedence ["births", "birth_count"] "births" (by decide) (by decide)

/-- C1: if, with no exact-name match, two or more distinct raw columns
survive deduplication as candidates for a logical field, the resolver
leaves the field unbound and reports it missing; in particular, headers
containing both "State" and "Residence State" (and no exact
state_of_residence column) put state_of_residence in missing and make
load return status missing_columns with the table still present. -/
theorem ambiguous_candidates_unbound :
    (∀ (columns : List String) (field : String), field ∈ logicalFields →
      field ∉ columns →
      2 ≤ (dedupFirst (candidatesFor aliasList columns field)).length →
      matchFieldWith aliasList columns field = none ∧
        field ∈ (matchRequiredFields columns).2) ∧
    (∀ df : DataFrame, "State" ∈ df.columns → "Residence State" ∈ df.columns →
      "state_of_residence" ∉ df.columns.map normalizeColName →
      load_data (.frame df) =
        some ⟨some ⟨df.columns.map normalizeColName, df.rows⟩, "missing_columns",
          .fields (matchRequiredFields (df.columns.map normalizeColName)).2,
          some (matchRequiredFields (df.columns.map normalizeColName)).1⟩ ∧
        "state_of_residence" ∈ (matchRequiredFields (df.columns.map normalizeColName)).2) := by
  have part1 : ∀ (columns : List String) (field : String), field ∈ logicalFields →
      field ∉ columns →
      2 ≤ (dedupFirst (candidatesFor aliasList columns field)).length →
      matchFieldWith aliasList columns field = none ∧
        field ∈ (matchRequiredFields columns).2 := by
    intro columns field hf hcol hlen
    refine ⟨matchFieldWith_of_ambiguous aliasList hcol hlen, ?_⟩
    rw [matchRequiredFields, mem_missing_iff]
    exact ⟨hf, matchFieldWith_of_ambiguous aliasList hcol hlen⟩
  refine ⟨part1, ?_⟩
  intro df h1 h2 h3
  have hstate : "state" ∈ df.columns.map normalizeColName :=
    List.mem_map.mpr ⟨"State", h1, by decide⟩
  have hres : "residence_state" ∈ df.columns.map normalizeColName :=
    List.mem_map.mpr ⟨"Residence State", h2, by decide⟩
  have hcand1 : "state" ∈ candidatesFor aliasList (df.columns.map normalizeColName)
      "state_of_residence" := by
    unfold candidatesFor
    refine List.mem_append_right _ (List.mem_flatMap.mpr ⟨"state", by decide, ?_⟩)
    exact List.mem_filter.mpr ⟨hstate, by decide⟩
  have hcand2 : "residence_state" ∈ candidatesFor aliasList (df.columns.map normalizeColName)
      "state_of_residence" := by
    unfold candidatesFor
    refine List.mem_append_right _ (List.mem_flatMap.mpr ⟨"residencestate", by decide, ?_⟩)
    exact List.mem_filter.mpr ⟨hres, by decide⟩
  have hlen : 2 ≤ (dedupFirst (candidatesFor aliasList (df.columns.map normalizeColName)
      "state_of_residence")).length :=
    two_le_length_of_nodup (nodup_dedupFirst _) ((mem_dedupFirst _ _).mpr hcand1)
      ((mem_dedupFirst _ _).mpr hcand2) (by decide)
  obtain ⟨-, hmiss⟩ := part1 (df.columns.map normalizeColName) "state_of_residence"
    (by decide) h3 hlen
  exact ⟨load_data_missing df (List.ne_nil_of_mem hmiss), hmiss⟩

/-- Witness for C1: the two conjuncts instantiated at a resolver input
holding the normalized pair and a frame holding the raw pair. -/
theorem ambiguous_candidates_unbound_witness :
    (matchFieldWith aliasList ["state", "residence_state"] "state_of_residence" = none ∧
      "state_of_residence" ∈ (matchRequiredFields ["state", "residence_state"]).2) ∧
    (load_data (.frame ⟨["State", "Residence State"], []⟩) =
      some ⟨some ⟨["State", "Residence State"].map normalizeColName, []⟩, "missing_columns",
        .fields (matchRequiredFields (["State", "Residence State"].map normalizeColName)).2,
        some (matchRequiredFields (["State", "Residence State"].map normalizeColName)).1⟩ ∧
      "state_of_residence" ∈
        (matchRequiredFields (["State", "Residence State"].map normalizeColName)).2) :=
  ⟨ambiguous_candidates_unbound.1 ["state", "residence_state"] "state_of_residence"
      (by decide) (by decide) (by decide),
   ambiguous_candidates_unbound.2 ⟨["State", "Residence State"], []⟩
      (by decide) (by decide) (by decide)⟩

/-- C7: the resolver is deterministic — enumerating each field's alias
set in any order (any permutation of the fixed table's lists) yields the
same (matched, missing) pair as the fixed enumeration. -/
theorem resolver_deterministic (al : String → List String)
    (h : ∀ f, (al f).Perm (aliasList f)) (columns : List String) :
    matchRequiredFieldsWith al columns = matchRequiredFields columns := by
  have hf : ∀ f, matchFieldWith al columns f = matchFieldWith aliasList columns f :=
    fun f => matchFieldWith_congr columns f (h f)
  unfold matchRequiredFields matchRequiredFieldsWith
  rw [List.filterMap_congr fun f _ => by rw [hf f], List.filter_congr fun f _ => by rw [hf f]]

/-- Witness for C7: resolving with every alias list reversed agrees with
the fixed order on a header list exercising alias matching. -/
theorem resolver_deterministic_witness :
    matchRequiredFieldsWith (fun f => (aliasList f).reverse)
      ["state", "month", "month_code", "year_code", "gender", "birth_count"] =
    matchRequiredFields ["state", "month", "month_code", "year_code", "gender", "birth_count"] :=
  resolver_deterministic _ (fun f => (aliasList f).reverse_perm) _

/-- C8: two raw names that differ only in case, internal spacing width,
or the choice among space, hyphen and underscore at separator positions —
i.e. names with the same spacing shape — have equal canonical keys. -/
theorem canonical_key_spacing_case_invariant (a b : String)
    (h : spacingShape a = spacingShape b) : canonicalKey a = canonicalKey b := by
  have key : ∀ s : String, canonKeyL s.toList = (spacingShape s).filter Char.isAlphanum := by
    intro s
    rw [spacingShape, filter_alnum_collapseSpaces, filter_alnum_map_sepFold, canonKeyL_eq]
  unfold canonicalKey
  congr 1
  rw [key, key, h]

/-- Witness for C8: a case change, a hyphen for a space, an underscore
run and a double space leave the canonical key unchanged. -/
theorem canonical_key_spacing_case_invariant_witness :
    canonicalKey "State Of-Residence" = canonicalKey "STATE__of  residence" :=
  canonical_key_spacing_case_invariant "State Of-Residence" "STATE__of  residence" (by decide)

/-- C9: the canonical key applies the normalizer and then removes every
character that is not an ASCII letter or digit — the underscores the
normalizer introduced included — so the key consists of alphanumeric
characters only. -/
theorem canonical_key_alnum_only (s : String) :
    canonicalKey s = ((normalizeColName s).toList.filter Char.isAlphanum).asString ∧
    (∀ c ∈ (canonicalKey s).toList, c.isAlphanum = true) ∧
    '_' ∉ (canonicalKey s).toList := by
  have hlist : (canonicalKey s).toList = canonKeyL s.toList := rfl
  refine ⟨rfl, ?_, ?_⟩
  · intro c hc
    rw [hlist] at hc
    exact List.of_mem_filter hc
  · intro h
    rw [hlist] at h
    have : ('_').isAlphanum = true := List.of_mem_filter h
    exact absurd this (by decide)

/-- Witness for C9 on a header with spaces, a hyphen and a digit. -/
theorem canonical_key_alnum_only_witness :
    canonicalKey " State of Residence-2 " =
      ((normalizeColName " State of Residence-2 ").toList.filter Char.isAlphanum).asString ∧
    ('s'.isAlphanum = true) ∧
    '_' ∉ (canonicalKey " State of Residence-2 ").toList :=
  ⟨(canonical_key_alnum_only " State of Residence-2 ").1,
   (canonical_key_alnum_only " State of Residence-2 ").2.1 's' (by decide),
   (canonical_key_alnum_only " State of Residence-2 ").2.2⟩

/-- C5: a readable input gets status missing_columns exactly when some
logical field is unbound after resolution; in that case `detail` is the
missing fields in declaration order (a sublist of `logicalFields`
containing exactly the unbound ones) and the table is still returned,
normalized but unbound. -/
theorem missing_columns_reporting (df : DataFrame) (r : LoadResult)
    (h : load_data (.frame df) = some r) :
    (r.status = "missing_columns" ↔
      ∃ f ∈ logicalFields,
        matchFieldWith aliasList (df.columns.map normalizeColName) f = none) ∧
    (r.status = "missing_columns" →
      r.detail = .fields (matchRequiredFields (df.columns.map normalizeColName)).2 ∧
      (matchRequiredFields (df.columns.map normalizeColName)).2.Sublist logicalFields ∧
      (∀ f, f ∈ (matchRequiredFields (df.columns.map normalizeColName)).2 ↔
        f ∈ logicalFields ∧
          matchFieldWith aliasList (df.columns.map normalizeColName) f = none) ∧
      r.table = some ⟨df.columns.map normalizeColName, df.rows⟩) := by
  by_cases hm : (matchRequiredFields (df.columns.map normalizeColName)).2 = []
  · have hnoex : ¬ ∃ f ∈ logicalFields,
        matchFieldWith aliasList (df.columns.map normalizeColName) f = none := by
      rintro ⟨f, hf, hnone⟩
      have hmem : f ∈ (matchRequiredFields (df.columns.map normalizeColName)).2 :=
        (mem_missing_iff aliasList _ f).mpr ⟨hf, hnone⟩
      rw [hm] at hmem
      exact absurd hmem (List.not_mem_nil f)
    have hstat : r.status = "ok" := by
      simp only [load_data] at h
      rw [if_neg (not_not_intro hm)] at h
      rcases hpipe : coercePipeline (renameDF ⟨df.columns.map normalizeColName, df.rows⟩
          (matchRequiredFields (df.columns.map normalizeColName)).1) with _ | d
      · rw [hpipe] at h
        exact Option.noConfusion h
      · rw [hpipe] at h
        obtain rfl := (Option.some.injEq _ _).mp h
        rfl
    rw [hstat]
    exact ⟨⟨fun hc => absurd hc (by decide), fun hex => absurd hex hnoex⟩,
      fun hc => absurd hc (by decide)⟩
  · have hload := load_data_missing df hm
    rw [hload] at h
    obtain rfl := (Option.some.injEq _ _).mp h
    refine ⟨⟨fun _ => ?_, fun _ => rfl⟩, fun _ => ⟨rfl, List.filter_sublist _, ?_, rfl⟩⟩
    · obtain ⟨f, hf⟩ := List.exists_mem_of_ne_nil _ hm
      obtain ⟨hfl, hfn⟩ := (mem_missing_iff aliasList _ f).mp hf
      exact ⟨f, hfl, hfn⟩
    · intro f
      exact mem_missing_iff aliasList _ f

/-- Witness for C5 at a frame with a single Month column: five fields
are missing, in declaration order, and the normalized table is returned. -/
theorem missing_columns_reporting_witness :
    (("missing_columns" : String) = "missing_columns" ↔
      ∃ f ∈ logicalFields,
        matchFieldWith aliasList (["Month"].map normalizeColName) f = none) ∧
    (("missing_columns" : String) = "missing_columns" →
      Detail.fields ["state_of_residence", "month_code", "year_code", "sex_of_infant", "births"] =
        .fields (matchRequiredFields (["Month"].map normalizeColName)).2 ∧
      (matchRequiredFields (["Month"].map normalizeColName)).2.Sublist logicalFields ∧
      (∀ f, f ∈ (matchRequiredFields (["Month"].map normalizeColName)).2 ↔
        f ∈ logicalFields ∧
          matchFieldWith aliasList (["Month"].map normalizeColName) f = none) ∧
      some (⟨["month"], []⟩ : DataFrame) = some ⟨["Month"].map normalizeColName, []⟩) :=
  missing_columns_reporting ⟨["Month"], []⟩
    ⟨some ⟨["month"], []⟩, "missing_columns",
      .fields ["state_of_residence", "month_code", "year_code", "sex_of_infant", "births"],
      some [("month", "month")]⟩ (by decide)

/-! Row-access and column-index helpers. -/

theorem updateAt_length (i : Nat) (f : Cell → Cell) (r : List Cell) :
    (updateAt i f r).length = r.length := by
  induction r generalizing i with
  | nil => simp [updateAt]
  | cons c cs ih =>
    cases i with
    | zero => simp [updateAt]
    | succ n => simpa [updateAt] using ih n

theorem getD_updateAt_self (i : Nat) {f : Cell → Cell} (hf : f Cell.na = Cell.na)
    (r : List Cell) : (updateAt i f r).getD i Cell.na = f (r.getD i Cell.na) := by
  induction r generalizing i with
  | nil => simp [updateAt, hf]
  | cons c cs ih =>
    cases i with
    | zero => simp [updateAt]
    | succ n => simpa [updateAt] using ih n

theorem getD_updateAt_self_lt (i : Nat) (f : Cell → Cell) (r : List Cell)
    (h : i < r.length) : (updateAt i f r).getD i Cell.na = f (r.getD i Cell.na) := by
  induction r generalizing i with
  | nil => simp at h
  | cons c cs ih =>
    cases i with
    | zero => simp [updateAt]
    | succ n => simpa [updateAt] using ih n (by simpa using h)

theorem getD_updateAt_ne (i j : Nat) (f : Cell → Cell) (r : List Cell) (h : i ≠ j) :
    (updateAt i f r).getD j Cell.na = r.getD j Cell.na := by
  induction r generalizing i j with
  | nil => simp [updateAt]
  | cons c cs ih =>
    cases i with
    | zero =>
      cases j with
      | zero => exact absurd rfl h
      | succ m => simp [updateAt]
    | succ n =>
      cases j with
      | zero => simp [updateAt]
      | succ m => simpa [updateAt] using ih n m (by omega)

theorem colIdx_lt_length {C : List String} {n : String} (h : n ∈ C) :
    colIdx C n < C.length := by
  induction C with
  | nil => simp at h
  | cons c cs ih =>
    by_cases hc : c = n
    · simp [colIdx, hc]
    · rcases List.mem_cons.mp h with rfl | hmem
      · exact absurd rfl hc
      · simp only [colIdx, if_neg hc, List.length_cons]
        exact Nat.succ_lt_succ (ih hmem)

theorem getD_colIdx {C : List String} {n : String} (h : n ∈ C) :
    C.getD (colIdx C n) "" = n := by
  induction C with
  | nil => simp at h
  | cons c cs ih =>
    by_cases hc : c = n
    · simp [colIdx, hc]
    · rcases List.mem_cons.mp h with rfl | hmem
      · exact absurd rfl hc
      · simp only [colIdx, if_neg hc, List.getD_cons_succ]
        exact ih hmem

theorem colIdx_ne {C : List String} {n1 n2 : String} (h1 : n1 ∈ C) (h2 : n2 ∈ C)
    (hne : n1 ≠ n2) : colIdx C n1 ≠ colIdx C n2 := by
  intro heq
  apply hne
  rw [← getD_colIdx h1, ← getD_colIdx h2, heq]

/-! Structure of a successful single-field resolution. -/

theorem candidatesFor_subset {al : String → List String} {cols : List String}
    {field : String} : ∀ c ∈ candidatesFor al cols field, c ∈ cols := by
  intro c hc
  unfold candidatesFor at hc
  rcases List.mem_append.mp hc with hc | hc
  · exact (List.mem_filter.mp hc).1
  · obtain ⟨k, -, hk⟩ := List.mem_flatMap.mp hc
    exact (List.mem_filter.mp hk).1

theorem matchFieldWith_some {al : String → List String} {cols : List String}
    {field c : String} (h : matchFieldWith al cols field = some c) :
    c ∈ cols ∧ (c = field ∨ canonicalKey c ∈ canonicalKey field :: al field) := by
  unfold matchFieldWith at h
  by_cases hex : field ∈ cols
  · rw [if_pos hex] at h
    obtain rfl := Option.some.inj h
    exact ⟨hex, Or.inl rfl⟩
  · rw [if_neg hex] at h
    by_cases hlen : (dedupFirst (candidatesFor al cols field)).length = 1
    · rw [if_pos hlen] at h
      obtain ⟨x, hx⟩ := List.length_eq_one.mp hlen
      rw [hx] at h
      have hxc : x = c := Option.some.inj h
      have hc : c ∈ dedupFirst (candidatesFor al cols field) := by
        rw [hx, hxc]
        exact List.mem_singleton_self c
      have hc2 := (mem_dedupFirst _ _).mp hc
      refine ⟨candidatesFor_subset c hc2, Or.inr ?_⟩
      unfold candidatesFor at hc2
      rcases List.mem_append.mp hc2 with h2 | h2
      · have : canonicalKey c = canonicalKey field := by
          simpa using (List.mem_filter.mp h2).2
        rw [this]
        exact List.mem_cons_self _ _
      · obtain ⟨k, hk, hkf⟩ := List.mem_flatMap.mp h2
        have : canonicalKey c = k := by simpa using (List.mem_filter.mp hkf).2
        exact List.mem_cons_of_mem _ (this ▸ hk)
    · rw [if_neg hlen] at h
      exact Option.noConfusion h

/-- The six logical fields are pairwise driven by disjoint key sets: no
canonical key is shared between two distinct fields' exact-plus-alias
keys.  This is a finite check over the fixed alias table. -/
theorem logical_field_keys_disjoint :
    ∀ f1 ∈ logicalFields, ∀ f2 ∈ logicalFields, f1 ≠ f2 →
      ∀ k ∈ canonicalKey f1 :: aliasList f1, k ∉ canonicalKey f2 :: aliasList f2 := by
  decide

theorem mem_matched_iff {al : String → List String} {cols : List String} {f c : String} :
    (f, c) ∈ (matchRequiredFieldsWith al cols).1 ↔
      f ∈ logicalFields ∧ matchFieldWith al cols f = some c := by
  unfold matchRequiredFieldsWith
  simp only [List.mem_filterMap, Option.map_eq_some']
  constructor
  · rintro ⟨a, ha, c', hc', heq⟩
    simp only [Prod.mk.injEq] at heq
    obtain ⟨rfl, rfl⟩ := heq
    exact ⟨ha, hc'⟩
  · rintro ⟨hf, hsome⟩
    exact ⟨f, hf, c, hsome, rfl⟩

theorem matched_functional {cols : List String} {f c1 c2 : String}
    (h1 : (f, c1) ∈ (matchRequiredFields cols).1)
    (h2 : (f, c2) ∈ (matchRequiredFields cols).1) : c1 = c2 := by
  obtain ⟨-, hs1⟩ := mem_matched_iff.mp h1
  obtain ⟨-, hs2⟩ := mem_matched_iff.mp h2
  rw [hs1] at hs2
  exact Option.some.inj hs2

theorem matched_injective {cols : List String} {f1 f2 c : String}
    (h1 : (f1, c) ∈ (matchRequiredFields cols).1)
    (h2 : (f2, c) ∈ (matchRequiredFields cols).1) : f1 = f2 := by
  by_contra hne
  obtain ⟨hf1, hs1⟩ := mem_matched_iff.mp h1
  obtain ⟨hf2, hs2⟩ := mem_matched_iff.mp h2
  obtain ⟨hc1, hk1⟩ := matchFieldWith_some hs1
  obtain ⟨-, hk2⟩ := matchFieldWith_some hs2
  rcases hk1 with rfl | hk1
  · rcases hk2 with heq | hk2
    · exact hne heq
    · exact logical_field_keys_disjoint c hf1 f2 hf2 hne (canonicalKey c)
        (List.mem_cons_self _ _) hk2
  · rcases hk2 with rfl | hk2
    · exact logical_field_keys_disjoint c hf2 f1 hf1 (Ne.symm hne) (canonicalKey c)
        (List.mem_cons_self _ _) hk1
    · exact logical_field_keys_disjoint f1 hf1 f2 hf2 hne (canonicalKey c) hk1 hk2

theorem bound_of_no_missing {cols : List String}
    (hm : (matchRequiredFields cols).2 = []) :
    ∀ f ∈ logicalFields, ∃ c, matchFieldWith aliasList cols f = some c := by
  intro f hf
  rcases hx : matchFieldWith aliasList cols f with _ | c
  · exfalso
    have hmem : f ∈ (matchRequiredFields cols).2 :=
      (mem_missing_iff aliasList cols f).mpr ⟨hf, hx⟩
    rw [hm] at hmem
    exact absurd hmem (List.not_mem_nil f)
  · exact ⟨c, rfl⟩

/-! Behaviour of the dict-based rename. -/

theorem renLookup_eq_of_mem {matched : List (String × String)} {f c : String}
    (hmem : (f, c) ∈ matched)
    (huniq : ∀ f', (f', c) ∈ matched → f' = f) :
    renLookup matched c = f := by
  unfold renLookup
  rcases hfind : matched.reverse.find? (fun p => p.2 == c) with _ | p
  · exfalso
    have := List.find?_eq_none.mp hfind (f, c) (List.mem_reverse.mpr hmem)
    simp at this
  · rw [hfind]
    have hp2 : p.2 = c := by simpa using List.find?_some hfind
    have hpmem : p ∈ matched := List.mem_reverse.mp (List.mem_of_find?_eq_some hfind)
    have hpc : (p.1, c) ∈ matched := by
      rw [← hp2]
      exact hpmem
    exact huniq p.1 hpc

theorem renLookup_eq_self {matched : List (String × String)} {c : String}
    (h : ∀ p ∈ matched, p.2 ≠ c) : renLookup matched c = c := by
  unfold renLookup
  rcases hfind : matched.reverse.find? (fun p => p.2 == c) with _ | p
  · rw [hfind]
  · exfalso
    have hp2 : p.2 = c := by simpa using List.find?_some hfind
    exact h p (List.mem_reverse.mp (List.mem_of_find?_eq_some hfind)) hp2

/-- When every logical field is bound and the (normalized) column list
has no duplicate names, each logical field labels exactly one column of
the renamed frame. -/
theorem renamed_count_one {cols : List String} (hnd : cols.Nodup)
    (hm : (matchRequiredFields cols).2 = []) :
    ∀ f ∈ logicalFields, (cols.map (renLookup (matchRequiredFields cols).1)).count f = 1 := by
  intro f hf
  obtain ⟨cf, hcf⟩ := bound_of_no_missing hm f hf
  have hcf_mem : cf ∈ cols := (matchFieldWith_some hcf).1
  have hmemM : (f, cf) ∈ (matchRequiredFields cols).1 := mem_matched_iff.mpr ⟨hf, hcf⟩
  have hren_cf : renLookup (matchRequiredFields cols).1 cf = f :=
    renLookup_eq_of_mem hmemM (fun f' h' => matched_injective h' hmemM)
  have hpoint : ∀ d ∈ cols,
      ((renLookup (matchRequiredFields cols).1 d == f) = (d == cf)) := by
    intro d hd
    by_cases hdc : d = cf
    · subst hdc
      simp [hren_cf]
    · have hne : renLookup (matchRequiredFields cols).1 d ≠ f := by
        intro habs
        by_cases hbound : ∃ f', (f', d) ∈ (matchRequiredFields cols).1
        · obtain ⟨f', hf'⟩ := hbound
          have hrd : renLookup (matchRequiredFields cols).1 d = f' :=
            renLookup_eq_of_mem hf' (fun f'' h'' => matched_injective h'' hf')
          rw [hrd] at habs
          subst habs
          exact hdc (matched_functional hf' hmemM)
        · push_neg at hbound
          have hrd : renLookup (matchRequiredFields cols).1 d = d :=
            renLookup_eq_self (fun p hp hpc => hbound p.1 (by rw [← hpc]; exact hp))
          rw [hrd] at habs
          subst habs
          have hx : matchFieldWith aliasList cols d = some d :=
            matchFieldWith_of_mem aliasList hd
          rw [hcf] at hx
          exact hdc (Option.some.inj hx).symm
      have e1 : (renLookup (matchRequiredFields cols).1 d == f) = false :=
        beq_eq_false_iff_ne.mpr hne
      have e2 : (d == cf) = false := beq_eq_false_iff_ne.mpr hdc
      rw [e1, e2]
  have hcount : (cols.map (renLookup (matchRequiredFields cols).1)).count f
      = cols.countP (fun d => d == cf) := by
    rw [List.count_eq_countP, List.countP_map]
    exact List.countP_congr fun d hd => by
      simp only [Function.comp_apply]
      rw [hpoint d hd]
  rw [hcount]
  exact List.count_eq_one_of_mem hnd hcf_mem

/-! Unfolding the coercion pipeline. -/

theorem mapCellCol_some {df d : DataFrame} {n : String} {f : Cell → Cell}
    (h : mapCellCol df n f = some d) :
    df.columns.count n = 1 ∧
      d = ⟨df.columns, df.rows.map (updateAt (colIdx df.columns n) f)⟩ := by
  unfold mapCellCol at h
  by_cases hc : df.columns.count n = 1
  · rw [if_pos hc] at h
    exact ⟨hc, (Option.some.inj h).symm⟩
  · rw [if_neg hc] at h
    exact Option.noConfusion h

theorem dropnaCol_some {df d : DataFrame} {n : String}
    (h : dropnaCol df n = some d) :
    df.columns.count n = 1 ∧
      d = ⟨df.columns,
        df.rows.filter fun r => decide (r.getD (colIdx df.columns n) .na ≠ .na)⟩ := by
  unfold dropnaCol at h
  by_cases hc : df.columns.count n = 1
  · rw [if_pos hc] at h
    exact ⟨hc, (Option.some.inj h).symm⟩
  · rw [if_neg hc] at h
    exact Option.noConfusion h

theorem mapCellCol_eq {df : DataFrame} {n : String} (f : Cell → Cell)
    (hc : df.columns.count n = 1) :
    mapCellCol df n f = some ⟨df.columns, df.rows.map (updateAt (colIdx df.columns n) f)⟩ := by
  unfold mapCellCol
  rw [if_pos hc]

theorem dropnaCol_eq {df : DataFrame} {n : String} (hc : df.columns.count n = 1) :
    dropnaCol df n = some ⟨df.columns,
      df.rows.filter fun r => decide (r.getD (colIdx df.columns n) .na ≠ .na)⟩ := by
  unfold dropnaCol
  rw [if_pos hc]

/-- Inversion of a successful coercion pipeline: the columns are
unchanged, every logical field labels exactly one column, and the rows
are exactly the input rows with a coercible births entry, transformed
cell-wise. -/
theorem coercePipeline_some {d t : DataFrame} (h : coercePipeline d = some t) :
    t.columns = d.columns ∧
    (∀ f ∈ logicalFields, d.columns.count f = 1) ∧
    t.rows = (d.rows.filter fun r => decide (¬ birthsFails d.columns r)).map
      (rowTransform d.columns) := by
  unfold coercePipeline at h
  rcases h1 : mapCellCol d "births" toNumericCell with _ | d1
  · rw [h1] at h; simp at h
  rw [h1] at h
  simp only [Option.some_bind] at h
  obtain ⟨hb, rfl⟩ := mapCellCol_some h1
  rcases h2 : dropnaCol _ "births" with _ | d2
  · rw [h2] at h; simp at h
  rw [h2] at h
  simp only [Option.some_bind] at h
  obtain ⟨-, rfl⟩ := dropnaCol_some h2
  rcases h3 : mapCellCol _ "state_of_residence" textifyCell with _ | d3
  · rw [h3] at h; simp at h
  rw [h3] at h
  simp only [Option.some_bind] at h
  obtain ⟨hst, rfl⟩ := mapCellCol_some h3
  rcases h4 : mapCellCol _ "month" textifyCell with _ | d4
  · rw [h4] at h; simp at h
  rw [h4] at h
  simp only [Option.some_bind] at h
  obtain ⟨hmo, rfl⟩ := mapCellCol_some h4
  rcases h5 : mapCellCol _ "sex_of_infant" textifyCell with _ | d5
  · rw [h5] at h; simp at h
  rw [h5] at h
  simp only [Option.some_bind] at h
  obtain ⟨hsx, rfl⟩ := mapCellCol_some h5
  rcases h6 : mapCellCol _ "month_code" toNumericCell with _ | d6
  · rw [h6] at h; simp at h
  rw [h6] at h
  simp only [Option.some_bind] at h
  obtain ⟨hmc, rfl⟩ := mapCellCol_some h6
  obtain ⟨hyc, rfl⟩ := mapCellCol_some h
  simp only at hb hst hmo hsx hmc hyc ⊢
  refine ⟨by simp, ?_, ?_⟩
  · intro f hf
    simp only [logicalFields, List.mem_cons, List.not_mem_nil, or_false] at hf
    rcases hf with rfl | rfl | rfl | rfl | rfl | rfl
    · exact hst
    · exact hmo
    · exact hmc
    · exact hyc
    · exact hsx
    · exact hb
  · rw [List.filter_map]
    rw [List.map_map, List.map_map, List.map_map, List.map_map, List.map_map]
    have hfil : d.rows.filter
        ((fun r => decide (r.getD (colIdx d.columns "births") .na ≠ .na)) ∘
          updateAt (colIdx d.columns "births") toNumericCell) =
        d.rows.filter fun r => decide (¬ birthsFails d.columns r) := by
      refine List.filter_congr fun r _ => ?_
      simp only [Function.comp_apply, birthsFails]
      rw [getD_updateAt_self (colIdx d.columns "births") rfl r]
    rw [hfil]
    rfl

theorem mapCellCol_isSome {df : DataFrame} {n : String} (f : Cell → Cell)
    (hc : df.columns.count n = 1) :
    ∃ e, mapCellCol df n f = some e ∧ e.columns = df.columns :=
  ⟨_, mapCellCol_eq f hc, rfl⟩

theorem dropnaCol_isSome {df : DataFrame} {n : String} (hc : df.columns.count n = 1) :
    ∃ e, dropnaCol df n = some e ∧ e.columns = df.columns :=
  ⟨_, dropnaCol_eq hc, rfl⟩

/-- Totality of the coercion pipeline when every logical field labels
exactly one column. -/
theorem coercePipeline_total {d : DataFrame}
    (h : ∀ f ∈ logicalFields, d.columns.count f = 1) :
    ∃ t, coercePipeline d = some t := by
  obtain ⟨d1, e1, c1⟩ := mapCellCol_isSome toNumericCell (h "births" (by decide))
  obtain ⟨d2, e2, c2⟩ := dropnaCol_isSome (by rw [c1]; exact h "births" (by decide))
  obtain ⟨d3, e3, c3⟩ := mapCellCol_isSome textifyCell
    (by rw [c2, c1]; exact h "state_of_residence" (by decide))
  obtain ⟨d4, e4, c4⟩ := mapCellCol_isSome textifyCell
    (by rw [c3, c2, c1]; exact h "month" (by decide))
  obtain ⟨d5, e5, c5⟩ := mapCellCol_isSome textifyCell
    (by rw [c4, c3, c2, c1]; exact h "sex_of_infant" (by decide))
  obtain ⟨d6, e6, c6⟩ := mapCellCol_isSome toNumericCell
    (by rw [c5, c4, c3, c2, c1]; exact h "month_code" (by decide))
  obtain ⟨d7, e7, c7⟩ := mapCellCol_isSome toNumericCell
    (by rw [c6, c5, c4, c3, c2, c1]; exact h "year_code" (by decide))
  refine ⟨d7, ?_⟩
  unfold coercePipeline
  rw [e1, Option.some_bind, e2, Option.some_bind, e3, Option.some_bind,
    e4, Option.some_bind, e5, Option.some_bind, e6, Option.some_bind, e7]

/-- Inversion of the binder on the ok branch. -/
theorem load_data_ok {df : DataFrame} {r : LoadResult}
    (h : load_data (.frame df) = some r) (hs : r.status = "ok") :
    (matchRequiredFields (df.columns.map normalizeColName)).2 = [] ∧
    ∃ t, r = ⟨some t, "ok", .none,
        some (matchRequiredFields (df.columns.map normalizeColName)).1⟩ ∧
      coercePipeline (renameDF ⟨df.columns.map normalizeColName, df.rows⟩
        (matchRequiredFields (df.columns.map normalizeColName)).1) = some t := by
  by_cases hm : (matchRequiredFields (df.columns.map normalizeColName)).2 = []
  · refine ⟨hm, ?_⟩
    simp only [load_data] at h
    rw [if_neg (not_not_intro hm)] at h
    rcases hp : coercePipeline (renameDF ⟨df.columns.map normalizeColName, df.rows⟩
        (matchRequiredFields (df.columns.map normalizeColName)).1) with _ | t
    · rw [hp] at h
      exact absurd h (by simp)
    · rw [hp] at h
      exact ⟨t, (Option.some.inj h).symm, rfl⟩
  · exfalso
    rw [load_data_missing df hm] at h
    rw [← Option.some.inj h] at hs
    simp at hs

theorem countP_birthsFails_split (C : List String) (l : List (List Cell)) :
    l.countP (fun r => decide (¬ birthsFails C r)) +
      l.countP (fun r => decide (birthsFails C r)) = l.length := by
  induction l with
  | nil => rfl
  | cons r rs ih =>
    by_cases hb : birthsFails C r <;> simp [List.countP_cons, hb, ← ih] <;> omega

/-- Reading the month_code entry of a transformed row: the pipeline's
only effect there is the numeric coercion. -/
theorem rowTransform_getD_month_code {C : List String}
    (hmem : ∀ f ∈ logicalFields, f ∈ C) (row : List Cell) :
    (rowTransform C row).getD (colIdx C "month_code") Cell.na =
      toNumericCell (row.getD (colIdx C "month_code") Cell.na) := by
  have hyc : colIdx C "year_code" ≠ colIdx C "month_code" :=
    colIdx_ne (hmem "year_code" (by decide)) (hmem "month_code" (by decide)) (by decide)
  have hsx : colIdx C "sex_of_infant" ≠ colIdx C "month_code" :=
    colIdx_ne (hmem "sex_of_infant" (by decide)) (hmem "month_code" (by decide)) (by decide)
  have hmo : colIdx C "month" ≠ colIdx C "month_code" :=
    colIdx_ne (hmem "month" (by decide)) (hmem "month_code" (by decide)) (by decide)
  have hst : colIdx C "state_of_residence" ≠ colIdx C "month_code" :=
    colIdx_ne (hmem "state_of_residence" (by decide)) (hmem "month_code" (by decide)) (by decide)
  have hb : colIdx C "births" ≠ colIdx C "month_code" :=
    colIdx_ne (hmem "births" (by decide)) (hmem "month_code" (by decide)) (by decide)
  unfold rowTransform
  rw [getD_updateAt_ne _ _ _ _ hyc, getD_updateAt_self _ rfl,
    getD_updateAt_ne _ _ _ _ hsx, getD_updateAt_ne _ _ _ _ hmo,
    getD_updateAt_ne _ _ _ _ hst, getD_updateAt_ne _ _ _ _ hb]

/-- Reading a text entry of a transformed row: the pipeline's only effect
there is `astype(str).str.strip()`. -/
theorem rowTransform_getD_text {C : List String}
    (hmem : ∀ f ∈ logicalFields, f ∈ C) {col : String}
    (hcol : col ∈ ["state_of_residence", "month", "sex_of_infant"]) (row : List Cell)
    (hlt : colIdx C col < row.length) :
    (rowTransform C row).getD (colIdx C col) Cell.na =
      textifyCell (row.getD (colIdx C col) Cell.na) := by
  have hne : ∀ n1 n2 : String, n1 ∈ logicalFields → n2 ∈ logicalFields → n1 ≠ n2 →
      colIdx C n1 ≠ colIdx C n2 :=
    fun n1 n2 h1 h2 h12 => colIdx_ne (hmem n1 h1) (hmem n2 h2) h12
  simp only [List.mem_cons, List.not_mem_nil, or_false] at hcol
  unfold rowTransform
  rcases hcol with rfl | rfl | rfl
  · rw [getD_updateAt_ne _ _ _ _ (hne "year_code" _ (by decide) (by decide) (by decide)),
      getD_updateAt_ne _ _ _ _ (hne "month_code" _ (by decide) (by decide) (by decide)),
      getD_updateAt_ne _ _ _ _ (hne "sex_of_infant" _ (by decide) (by decide) (by decide)),
      getD_updateAt_ne _ _ _ _ (hne "month" _ (by decide) (by decide) (by decide)),
      getD_updateAt_self_lt _ _ _ (by rwa [updateAt_length]),
      getD_updateAt_ne _ _ _ _ (hne "births" _ (by decide) (by decide) (by decide))]
  · rw [getD_updateAt_ne _ _ _ _ (hne "year_code" _ (by decide) (by decide) (by decide)),
      getD_updateAt_ne _ _ _ _ (hne "month_code" _ (by decide) (by decide) (by decide)),
      getD_updateAt_ne _ _ _ _ (hne "sex_of_infant" _ (by decide) (by decide) (by decide)),
      getD_updateAt_self_lt _ _ _ (by rwa [updateAt_length, updateAt_length]),
      getD_updateAt_ne _ _ _ _ (hne "state_of_residence" _ (by decide) (by decide) (by decide)),
      getD_updateAt_ne _ _ _ _ (hne "births" _ (by decide) (by decide) (by decide))]
  · rw [getD_updateAt_ne _ _ _ _ (hne "year_code" _ (by decide) (by decide) (by decide)),
      getD_updateAt_ne _ _ _ _ (hne "month_code" _ (by decide) (by decide) (by decide)),
      getD_updateAt_self_lt _ _ _
        (by rwa [updateAt_length, updateAt_length, updateAt_length]),
      getD_updateAt_ne _ _ _ _ (hne "month" _ (by decide) (by decide) (by decide)),
      getD_updateAt_ne _ _ _ _ (hne "state_of_residence" _ (by decide) (by decide) (by decide)),
      getD_updateAt_ne _ _ _ _ (hne "births" _ (by decide) (by decide) (by decide))]

theorem textifyCell_is_str (c : Cell) : ∃ s, textifyCell c = Cell.str s := by
  cases c <;> exact ⟨_, rfl⟩

/-! The claims about the binder. -/

/-- Counterexample to C2 as stated: a readable frame whose raw headers
"Births" and "births" both normalize to the bound label "births" makes
the binder raise inside the coercion pipeline (`pd.to_numeric` receives
the two-column selection `df["births"]`), so load returns no status at
all for this input. -/
theorem load_data_none_on_duplicate_headers :
    load_data (.frame ⟨["State of Residence", "Month", "Month Code", "Year Code",
      "Sex of Infant", "Births", "births"], []⟩) = none := by decide

/-- C2 amended: every I/O or parse fault of the read step is captured as
a status — file_not_found with an absent table when the resource does not
exist, read_error carrying the underlying message for any other read
fault — and any returned status is one of the four documented values.  A
status is further guaranteed for every readable frame whose normalized
header list is duplicate-free; it is not guaranteed when normalization
collides two raw headers onto one bound label (see the counterexample). -/
theorem statuses_cover_read_faults :
    load_data .fileNotFound = some ⟨Option.none, "file_not_found", .none, Option.none⟩ ∧
    (∀ m, load_data (.readError m) = some ⟨Option.none, "read_error", .msg m, Option.none⟩) ∧
    (∀ df : DataFrame, (df.columns.map normalizeColName).Nodup →
      ∃ r, load_data (.frame df) = some r) ∧
    (∀ i r, load_data i = some r →
      r.status = "ok" ∨ r.status = "file_not_found" ∨ r.status = "read_error" ∨
        r.status = "missing_columns") := by
  refine ⟨rfl, fun m => rfl, ?_, ?_⟩
  · intro df hnd
    by_cases hm : (matchRequiredFields (df.columns.map normalizeColName)).2 = []
    · have hcnt : ∀ f ∈ logicalFields,
          (renameDF ⟨df.columns.map normalizeColName, df.rows⟩
            (matchRequiredFields (df.columns.map normalizeColName)).1).columns.count f = 1 := by
        intro f hf
        simpa [renameDF] using renamed_count_one hnd hm f hf
      obtain ⟨t, ht⟩ := coercePipeline_total hcnt
      refine ⟨⟨some t, "ok", .none,
        some (matchRequiredFields (df.columns.map normalizeColName)).1⟩, ?_⟩
      simp only [load_data]
      rw [if_neg (not_not_intro hm), ht]
    · exact ⟨_, load_data_missing df hm⟩
  · intro i r hir
    cases i with
    | fileNotFound =>
      rw [← Option.some.inj hir]
      exact Or.inr (Or.inl rfl)
    | readError m =>
      rw [← Option.some.inj hir]
      exact Or.inr (Or.inr (Or.inl rfl))
    | frame df =>
      by_cases hm : (matchRequiredFields (df.columns.map normalizeColName)).2 = []
      · simp only [load_data] at hir
        rw [if_neg (not_not_intro hm)] at hir
        rcases hp : coercePipeline (renameDF ⟨df.columns.map normalizeColName, df.rows⟩
            (matchRequiredFields (df.columns.map normalizeColName)).1) with _ | d
        · rw [hp] at hir
          exact absurd hir (by simp)
        · rw [hp] at hir
          rw [← Option.some.inj hir]
          exact Or.inl rfl
      · rw [load_data_missing df hm] at hir
        rw [← Option.some.inj hir]
        exact Or.inr (Or.inr (Or.inr rfl))

/-- Witness for the amended C2: the sample frame (duplicate-free after
normalization) gets a status, and the file-not-found result's status is
among the four documented values. -/
theorem statuses_cover_read_faults_witness :
    (∃ r, load_data (.frame sampleFrame) = some r) ∧
    (("file_not_found" : String) = "ok" ∨ ("file_not_found" : String) = "file_not_found" ∨
      ("file_not_found" : String) = "read_error" ∨
      ("file_not_found" : String) = "missing_columns") :=
  ⟨statuses_cover_read_faults.2.2.1 sampleFrame (by decide),
   statuses_cover_read_faults.2.2.2 .fileNotFound
     ⟨Option.none, "file_not_found", .none, Option.none⟩ (by decide)⟩

/-- C4: when load returns ok, the output row count is the input row count
minus exactly the rows whose births value fails numeric coercion; every
row with a coercible births value is retained as its cell-wise transform,
and a retained row whose month_code fails coercion keeps its place with
the month_code entry absent. -/
theorem row_drop_law (df : DataFrame) (r : LoadResult) (t : DataFrame)
    (h : load_data (.frame df) = some r) (hs : r.status = "ok")
    (ht : r.table = some t) :
    t.rows.length =
      df.rows.length - df.rows.countP (fun row => decide (birthsFails t.columns row)) ∧
    (∀ row ∈ df.rows, ¬ birthsFails t.columns row →
      rowTransform t.columns row ∈ t.rows) ∧
    (∀ row ∈ df.rows, ¬ birthsFails t.columns row →
      toNumericCell (row.getD (colIdx t.columns "month_code") Cell.na) = Cell.na →
      rowTransform t.columns row ∈ t.rows ∧
        (rowTransform t.columns row).getD (colIdx t.columns "month_code") Cell.na
          = Cell.na) := by
  obtain ⟨hm, t', hr, hp⟩ := load_data_ok h hs
  subst hr
  obtain rfl := Option.some.inj ht
  obtain ⟨hcols, hcount, hrows⟩ := coercePipeline_some hp
  simp only [renameDF] at hcols hcount hrows
  rw [hcols]
  have hmem : ∀ f ∈ logicalFields, f ∈ (df.columns.map normalizeColName).map
      (renLookup (matchRequiredFields (df.columns.map normalizeColName)).1) := by
    intro f hf
    have := hcount f hf
    simp only [renameDF] at this
    exact List.count_pos_iff.mp (by omega)
  refine ⟨?_, ?_, ?_⟩
  · rw [hrows, List.length_map, ← List.countP_eq_length_filter]
    have := countP_birthsFails_split ((df.columns.map normalizeColName).map
      (renLookup (matchRequiredFields (df.columns.map normalizeColName)).1)) df.rows
    omega
  · intro row hrow hfail
    rw [hrows]
    exact List.mem_map.mpr ⟨row, List.mem_filter.mpr ⟨hrow, by simpa using hfail⟩, rfl⟩
  · intro row hrow hfail hmc
    refine ⟨?_, ?_⟩
    · rw [hrows]
      exact List.mem_map.mpr ⟨row, List.mem_filter.mpr ⟨hrow, by simpa using hfail⟩, rfl⟩
    · rw [rowTransform_getD_month_code hmem row, hmc]

/-- Witness for C4 at the sample frame: one of two rows survives, and
the surviving row keeps its place with month_code absent. -/
theorem row_drop_law_witness :
    sampleBound.rows.length = sampleFrame.rows.length -
      sampleFrame.rows.countP (fun row => decide (birthsFails sampleBound.columns row)) ∧
    (rowTransform sampleBound.columns
        [Cell.na, Cell.str " Jan ", Cell.str "N/A", Cell.num 2025, Cell.str "F",
          Cell.str "10"] ∈ sampleBound.rows ∧
      (rowTransform sampleBound.columns
          [Cell.na, Cell.str " Jan ", Cell.str "N/A", Cell.num 2025, Cell.str "F",
            Cell.str "10"]).getD (colIdx sampleBound.columns "month_code") Cell.na
        = Cell.na) := by
  have hmain := row_drop_law sampleFrame sampleResult sampleBound
    (by decide) (by decide) (by decide)
  exact ⟨hmain.1, hmain.2.2 _ (by decide) (by decide) (by decide)⟩

/-- C6: when load returns ok, each of the six logical field names labels
exactly one column of the renamed table, and the binding is one-to-one:
no two logical fields are bound to the same physical column, each field
is bound to at most one column, and every field is bound. -/
theorem ok_binding_one_to_one (df : DataFrame) (r : LoadResult) (t : DataFrame)
    (h : load_data (.frame df) = some r) (hs : r.status = "ok")
    (ht : r.table = some t) :
    (∀ f ∈ logicalFields, f ∈ t.columns ∧ t.columns.count f = 1) ∧
    (∃ m, r.matched = some m ∧
      (∀ f1 f2 c, (f1, c) ∈ m → (f2, c) ∈ m → f1 = f2) ∧
      (∀ f c1 c2, (f, c1) ∈ m → (f, c2) ∈ m → c1 = c2) ∧
      (∀ f ∈ logicalFields, ∃ c, (f, c) ∈ m)) := by
  obtain ⟨hm, t', hr, hp⟩ := load_data_ok h hs
  subst hr
  obtain rfl := Option.some.inj ht
  obtain ⟨hcols, hcount, -⟩ := coercePipeline_some hp
  refine ⟨?_, ?_⟩
  · intro f hf
    have hc := hcount f hf
    rw [← hcols] at hc
    exact ⟨List.count_pos_iff.mp (by omega), hc⟩
  · refine ⟨(matchRequiredFields (df.columns.map normalizeColName)).1, rfl, ?_, ?_, ?_⟩
    · exact fun f1 f2 c h1 h2 => matched_injective h1 h2
    · exact fun f c1 c2 h1 h2 => matched_functional h1 h2
    · intro f hf
      obtain ⟨c, hc⟩ := bound_of_no_missing hm f hf
      exact ⟨c, mem_matched_iff.mpr ⟨hf, hc⟩⟩

/-- Witness for C6 at the sample frame, instantiated at the births
column and the identity binding. -/
theorem ok_binding_one_to_one_witness :
    ("births" ∈ sampleBound.columns ∧ sampleBound.columns.count "births" = 1) ∧
    (∃ m, sampleResult.matched = some m ∧
      (∀ f1 f2 c, (f1, c) ∈ m → (f2, c) ∈ m → f1 = f2) ∧
      (∀ f c1 c2, (f, c1) ∈ m → (f, c2) ∈ m → c1 = c2) ∧
      (∀ f ∈ logicalFields, ∃ c, (f, c) ∈ m)) := by
  have hmain := ok_binding_one_to_one sampleFrame sampleResult sampleBound
    (by decide) (by decide) (by decide)
  exact ⟨hmain.1 "births" (by decide), hmain.2⟩

/-- C10: when load returns ok (on a rectangular input frame), the three
text columns of the returned table contain no absent value — every entry
is a string — and an entry that was absent before coercion has been
turned into the literal non-empty string "nan" by `astype(str)`. -/
theorem text_columns_no_absent (df : DataFrame) (r : LoadResult) (t : DataFrame)
    (h : load_data (.frame df) = some r) (hs : r.status = "ok") (ht : r.table = some t)
    (hrect : ∀ row ∈ df.rows, row.length = df.columns.length) :
    (∀ col ∈ ["state_of_residence", "month", "sex_of_infant"], ∀ row ∈ t.rows,
      (∃ s, row.getD (colIdx t.columns col) Cell.na = Cell.str s) ∧
      row.getD (colIdx t.columns col) Cell.na ≠ Cell.na) ∧
    (∀ col ∈ ["state_of_residence", "month", "sex_of_infant"], ∀ row ∈ df.rows,
      row.getD (colIdx t.columns col) Cell.na = Cell.na →
      (rowTransform t.columns row).getD (colIdx t.columns col) Cell.na = Cell.str "nan") ∧
    textifyCell Cell.na = Cell.str "nan" ∧ ("nan" : String) ≠ "" := by
  obtain ⟨hm, t', hr, hp⟩ := load_data_ok h hs
  subst hr
  obtain rfl := Option.some.inj ht
  obtain ⟨hcols, hcount, hrows⟩ := coercePipeline_some hp
  simp only [renameDF] at hcols hcount hrows
  rw [hcols]
  have hmem : ∀ f ∈ logicalFields, f ∈ (df.columns.map normalizeColName).map
      (renLookup (matchRequiredFields (df.columns.map normalizeColName)).1) := by
    intro f hf
    have := hcount f hf
    simp only [renameDF] at this
    exact List.count_pos_iff.mp (by omega)
  have hlen : ((df.columns.map normalizeColName).map
      (renLookup (matchRequiredFields (df.columns.map normalizeColName)).1)).length
      = df.columns.length := by
    simp
  have hcollf : ∀ col ∈ (["state_of_residence", "month", "sex_of_infant"] : List String),
      col ∈ logicalFields := by decide
  refine ⟨?_, ?_, rfl, by decide⟩
  · intro col hcol row' hrow'
    rw [hrows] at hrow'
    obtain ⟨row0, hrow0f, rfl⟩ := List.mem_map.mp hrow'
    have hrow0 : row0 ∈ df.rows := (List.mem_filter.mp hrow0f).1
    have hlt : colIdx ((df.columns.map normalizeColName).map
        (renLookup (matchRequiredFields (df.columns.map normalizeColName)).1)) col
        < row0.length := by
      rw [hrect row0 hrow0, ← hlen]
      exact colIdx_lt_length (hmem col (hcollf col hcol))
    rw [rowTransform_getD_text hmem hcol row0 hlt]
    obtain ⟨s, hstr⟩ := textifyCell_is_str (row0.getD (colIdx ((df.columns.map
      normalizeColName).map (renLookup (matchRequiredFields
      (df.columns.map normalizeColName)).1)) col) Cell.na)
    rw [hstr]
    exact ⟨⟨s, rfl⟩, by simp⟩
  · intro col hcol row hrow hna
    have hlt : colIdx ((df.columns.map normalizeColName).map
        (renLookup (matchRequiredFields (df.columns.map normalizeColName)).1)) col
        < row.length := by
      rw [hrect row hrow, ← hlen]
      exact colIdx_lt_length (hmem col (hcollf col hcol))
    rw [rowTransform_getD_text hmem hcol row hlt, hna]
    rfl

/-- Witness for C10 at the sample frame: the state column of the single
surviving row is the string "nan" produced from a missing input value. -/
theorem text_columns_no_absent_witness :
    ((∃ s, ([Cell.str "nan", Cell.str "Jan", Cell.na, Cell.num 2025, Cell.str "F",
        Cell.num 10] : List Cell).getD
          (colIdx sampleBound.columns "state_of_residence") Cell.na = Cell.str s) ∧
      ([Cell.str "nan", Cell.str "Jan", Cell.na, Cell.num 2025, Cell.str "F",
        Cell.num 10] : List Cell).getD
          (colIdx sampleBound.columns "state_of_residence") Cell.na ≠ Cell.na) ∧
    (rowTransform sampleBound.columns
        [Cell.na, Cell.str " Jan ", Cell.str "N/A", Cell.num 2025, Cell.str "F",
          Cell.str "10"]).getD
      (colIdx sampleBound.columns "state_of_residence") Cell.na = Cell.str "nan" := by
  have hmain := text_columns_no_absent sampleFrame sampleResult sampleBound
    (by decide) (by decide) (by decide) (by decide)
  exact ⟨hmain.1 "state_of_residence" (by decide) _ (by decide),
    hmain.2.1 "state_of_residence" (by decide) _ (by decide) (by decide)⟩

end BirthData
